import Mathlib

/-!
Verification development for the simple websocket consumer
(src/simple_consumer/consumer.py).

The consumer module is embedded shallowly.  Python strings are modelled as
`List Char`; Python `in` on strings is substring containment (`<:+:` on the
character lists), `str.split` with a non-empty separator, `str.strip` and
`str.replace` are given executable models below.  The companion modules
`signatures`, `utils` and `decoratos` are not part of the sources; the data
they provide (the routing message with its role predicates and before flag,
the payload/event constructors and their TypeError messages, the
camel-case-to-separator name conversion) is modelled from the spec where
indicated.  Machine-level details (the channels transport, the database,
the cache) are external collaborators and appear only as abstract inputs.
-/

namespace SimpleConsumer

/-- The apostrophe character, written by code point to keep source plain. -/
def quoteC : Char := Char.ofNat 39

/-- Python `str.isspace` on the characters that occur in the modelled
TypeError messages (space, tab, newline, carriage return). -/
def isPySpace (c : Char) : Bool := c == ' ' || c == '\t' || c == '\n' || c == '\r'

/-- Characters of a Python identifier (field names of payload dataclasses). -/
def isIdChar (c : Char) : Bool := c.isAlphanum || c == '_'

/-- Python `pat in s` for strings: substring containment. -/
def pyIn (pat s : List Char) : Bool := decide (pat <:+: s)

/-- Python `s.split(sep)` for a non-empty separator, with explicit fuel
(one unit per character of `s`, which always suffices because every
recursive call strictly shortens the remaining characters). -/
def pySplitF (sep : List Char) : Nat → List Char → List (List Char)
  | _, [] => [[]]
  | 0, s => [s]
  | fuel+1, c :: rest =>
    if sep ≠ [] && sep.isPrefixOf (c :: rest) then
      [] :: pySplitF sep fuel ((c :: rest).drop sep.length)
    else
      match pySplitF sep fuel rest with
      | [] => [[c]]
      | h :: t => (c :: h) :: t

/-- Python `s.split(sep)`. -/
def pySplit (sep s : List Char) : List (List Char) := pySplitF sep s.length s

/-- Python `s.strip()`: drop whitespace from both ends. -/
def pyStrip (s : List Char) : List Char :=
  ((s.dropWhile isPySpace).reverse.dropWhile isPySpace).reverse

/-- Python `s.replace(q, emptystring)` for the one-character pattern `q`:
every occurrence of the character is dropped. -/
def pyRemoveQuotes (s : List Char) : List Char := s.filter (fun c => !(c == quoteC))

/-- Target classification (`TargetsEnum` of the signatures module).
Modelled from the spec: broadcast-to-all-members and
direct-to-resolved-user. -/
inductive TargetsEnum where
  | for_all
  | for_user
deriving DecidableEq

/-- Error payloads of the `ResponsePayload` taxonomy (signatures module;
modelled from the spec, which fixes the five kinds and the field name each
signature error carries). -/
inductive ErrPayload where
  | ActionNotExist
  | PayloadSignatureWrong (required : List Char)
  | ActionSignatureWrong (unexpected : List Char)
  | RecipientNotExist
  | ChannelLayerDisabled
deriving DecidableEq

/-- Modelled from the spec: the routing message (`Message` of the missing
signatures module) with the fields the routing engine reads — target
classification, initiator and acting user identities, the resolved target
user, and the single-use before-activated flag. -/
structure Message where
  target : TargetsEnum
  initiator_user : Nat
  acting_user : Nat
  target_user : Option Nat
  before_activated : Bool
deriving DecidableEq

/-- Modelled from the spec (§4.4 step 1): the local user is the initiator
when it equals the event's initiator. -/
def Message.is_initiator (m : Message) : Bool := m.acting_user == m.initiator_user

/-- Modelled from the spec (§4.4 step 1): the local user is a target when
the class is broadcast-to-all, or it is direct-to-resolved-user and the
resolved target equals the local user. -/
def Message.is_target (m : Message) : Bool :=
  m.target == TargetsEnum.for_all ||
    (m.target == TargetsEnum.for_user && m.target_user == some m.acting_user)

/-- Modelled from the spec: mark the single-use before flag. -/
def Message.before_activate (m : Message) : Message := { m with before_activated := true }

/-- Modelled from the spec: clear the single-use before flag. -/
def Message.before_drop (m : Message) : Message := { m with before_activated := false }

/-- Outcome of running the construction callable handed to
`check_signature`: success, a TypeError carrying its message string, or a
failure that is not a TypeError. -/
inductive ConsResult where
  | ok (v : Nat)
  | typeError (msg : List Char)
  | otherFailure

/-- Observable actions of the consumer during one evaluation: an error
envelope fired back to the local connection, a publish to a group, the
log line for a missing broadcast group, the three hook invocations of a
routing pass, and an outbound frame produced by a hook's returned event. -/
inductive Act where
  | errorFired (p : ErrPayload)
  | published (group : List Char)
  | logged
  | callBefore
  | callInitiator
  | callTarget
  | sentJson (e : Nat)
deriving DecidableEq

/-- check_signature (consumer.py lines 223–237): run the construction;
catch a TypeError and classify it by the substrings of its message,
extracting the reported field name by split/strip/replace exactly as the
source does; any other exception — and the IndexError the source would
raise when the split yields no second part — propagates (`Except.error`).
Returns the data, the error flag, and the error envelopes fired. -/
def check_signature (r : ConsResult) : Except Unit (Option Nat × Bool × List ErrPayload) :=
  match r with
  | ConsResult.ok v => Except.ok (some v, false, [])
  | ConsResult.otherFailure => Except.error ()
  | ConsResult.typeError msg =>
    let m1 : Except Unit (Bool × List ErrPayload) :=
      if pyIn " missing ".toList msg then
        match (pySplit "argument: ".toList msg)[1]? with
        | none => Except.error ()
        | some part =>
          Except.ok (true, [ErrPayload.PayloadSignatureWrong (pyRemoveQuotes (pyStrip part))])
      else Except.ok (false, [])
    match m1 with
    | Except.error e => Except.error e
    | Except.ok (err1, errs1) =>
      if pyIn " unexpected ".toList msg then
        match (pySplit "argument".toList msg)[1]? with
        | none => Except.error ()
        | some part =>
          Except.ok (none, true,
            errs1 ++ [ErrPayload.ActionSignatureWrong (pyRemoveQuotes (pyStrip part))])
      else Except.ok (none, err1, errs1)

/-- parse_message (consumer.py lines 246–260): the routing message is built
fresh for the evaluation, so its before flag starts unset.  The resolved
target user is the outcome of the external target-resolver lookup. -/
def parse_message (target : TargetsEnum) (iu au : Nat) (tu : Option Nat) : Message :=
  { target := target, initiator_user := iu, acting_user := au, target_user := tu,
    before_activated := false }

/-- The frame a role hook sends back, if it returned an event. -/
def sentOf : Option Nat → List Act
  | some e => [Act.sentJson e]
  | none => []

/-- The local `before()` of send_broadcast (lines 277–282): if a before
hook was supplied and the flag is unset, run it, mark the flag, and report
activation. -/
def beforeFn (hasBefore : Bool) (m : Message) : Bool × Message × List Act :=
  if hasBefore && !m.before_activated then
    (true, m.before_activate, [Act.callBefore])
  else (false, m, [])

/-- The local `do_for(do)` of send_broadcast (lines 284–290): run before,
run the role hook (sending any event it returns), then clear the flag if
it is set but was not set by this role. -/
def do_for (hasBefore : Bool) (roleAct : Act) (ret : Option Nat) (m : Message) :
    Message × List Act :=
  let r := beforeFn hasBefore m
  let m2 := if r.2.1.before_activated && !r.1 then r.2.1.before_drop else r.2.1
  (m2, r.2.2 ++ [roleAct] ++ sentOf ret)

/-- send_broadcast (consumer.py lines 262–296): parse the payload (whose
construction outcome is `payloadRes`), abort with a signature error when
classification failed, build the routing message, abort with
RecipientNotExist when the target class is direct-to-user with no resolved
user and the local connection is the initiator, then run the initiator and
target role blocks.  The result carries the emitted actions and the final
state of the routing message (`none` when the pass aborted before the
message was built). -/
def send_broadcast (payloadRes : ConsResult) (target : TargetsEnum) (iu au : Nat)
    (tu : Option Nat) (hasBefore hasInit hasTarget : Bool) (retInit retTarget : Option Nat) :
    Except Unit (List Act × Option Message) :=
  match check_signature payloadRes with
  | Except.error e => Except.error e
  | Except.ok (_, error, errActs) =>
    if error then Except.ok (errActs.map Act.errorFired, none)
    else
      let m := parse_message target iu au tu
      if (m.target == TargetsEnum.for_user && m.target_user == none) && m.is_initiator then
        Except.ok ([Act.errorFired ErrPayload.RecipientNotExist], some m)
      else
        let s1 := if m.is_initiator && hasInit then do_for hasBefore Act.callInitiator retInit m
                  else (m, [])
        let s2 := if s1.1.is_target && hasTarget then do_for hasBefore Act.callTarget retTarget s1.1
                  else (s1.1, [])
        Except.ok (s1.2 ++ s2.2, some s2.1)

/-- send_json (consumer.py lines 152–155): pop the `system` key when
present, then hand the remaining content to the transport.  Content is an
association list with string keys (a Python dict has no duplicate keys). -/
def send_json (content : List (String × Nat)) : List (String × Nat) :=
  if content.any (fun kv => kv.1 == "system") then
    content.eraseP (fun kv => kv.1 == "system")
  else content

/-- Which actions are hook invocations of a routing pass. -/
def isHookCall : Act → Bool
  | Act.callBefore => true
  | Act.callInitiator => true
  | Act.callTarget => true
  | _ => false

/-- Final before-activated flag of a completed send_broadcast run, when the
run returned normally with a constructed message. -/
def finalFlag : Except Unit (List Act × Option Message) → Option Bool
  | Except.ok (_, some m) => some m.before_activated
  | _ => none

/-- Modelled from the spec: the camel-case-to-separator conversion of the
missing utils module (`camel_to_snake`, `camel_to_dot`): every upper-case
letter after the first character is preceded by the separator, and all
letters are lower-cased.  Auxiliary pass over the tail. -/
def camelSepAux (sep : Char) : List Char → List Char
  | [] => []
  | c :: rest => (if c.isUpper then [sep, c.toLower] else [c]) ++ camelSepAux sep rest

/-- Modelled from the spec: camel-case-to-separator conversion (whole name;
the first character is only lower-cased). -/
def camelSep (sep : Char) : List Char → List Char
  | [] => []
  | c :: rest => c.toLower :: camelSepAux sep rest

/-- camel_to_snake of the missing utils module (modelled from the spec). -/
def camel_to_snake (s : List Char) : List Char := camelSep '_' s

/-- camel_to_dot of the missing utils module (modelled from the spec). -/
def camel_to_dot (s : List Char) : List Char := camelSep '.' s

/-- get_handler_name of the channels library applied to the event's
channels form: the event's dot-separated name with dots replaced by
underscores. -/
def handlerName (eventName : List Char) : List Char :=
  eventName.map (fun c => if c == '.' then '_' else c)

/-- The consumer's configuration for one frame: whether a channel layer is
configured, the broadcast group, and the SimpleEvent subclasses declared as
class attributes (attribute name and hidden flag). -/
structure ConsumerCfg where
  has_channel_layer : Bool
  broadcast_group : Option (List Char)
  event_classes : List (List Char × Bool)

/-- getattr on the consumer for a handler name, after hide_events
(consumer.py lines 298–306) ran at construction: every declared event class
is still reachable under its original attribute name, and every non-hidden
one is additionally registered under its snake-case name. -/
def lookupHandler (cfg : ConsumerCfg) (hname : List Char) : Bool :=
  cfg.event_classes.any (fun ec => ec.1 == hname) ||
    (cfg.event_classes.filter (fun ec => !ec.2)).any
      (fun ec => camel_to_snake ec.1 == hname)

/-- receive_json (consumer.py lines 197–216): refuse the frame when no
channel layer is configured; build the event envelope through
check_signature (its construction outcome is `res`); return after a
classified signature error; reply ActionNotExist when no attribute matches
the handler name; publish to the broadcast group when one is configured,
otherwise only log.  When the construction was swallowed with no event and
no error flag (a TypeError matching neither substring), the source reaches
`send_to_group(None)`, which raises — modelled as `Except.error`. -/
def receive_json (cfg : ConsumerCfg) (eventName : List Char) (res : ConsResult) :
    Except Unit (List Act) :=
  if !cfg.has_channel_layer then
    Except.ok [Act.errorFired ErrPayload.ChannelLayerDisabled]
  else
    match check_signature res with
    | Except.error e => Except.error e
    | Except.ok (data, error, errActs) =>
      if error then Except.ok (errActs.map Act.errorFired)
      else
        match data with
        | some _ =>
          if lookupHandler cfg (handlerName eventName) then
            match cfg.broadcast_group with
            | some g => Except.ok [Act.published g]
            | none => Except.ok [Act.logged]
          else
            Except.ok (errActs.map Act.errorFired ++ [Act.errorFired ErrPayload.ActionNotExist])
        | none =>
          match cfg.broadcast_group with
          | some _ => Except.error ()
          | none => Except.ok [Act.logged]

/-- Modelled from the spec: the outcome of the payload/event dataclass
construction of the missing signatures module — success, a failure naming
the (first) missing required field, a failure naming an unexpected supplied
field, or a fault that is not a TypeError. -/
inductive BuildOutcome where
  | built (v : Nat)
  | missingField (f : List Char)
  | unexpectedField (f : List Char)
  | otherFault

/-- Modelled from the spec: the TypeError message CPython raises when a
required keyword field `f` is absent from the construction call. -/
def missingMsg (f : List Char) : List Char :=
  "__init__() missing 1 required positional argument: ".toList ++
    (quoteC :: (f ++ [quoteC]))

/-- Modelled from the spec: the TypeError message CPython raises when an
unrecognized keyword field `f` is supplied to the construction call. -/
def unexpectedMsg (f : List Char) : List Char :=
  "__init__() got an unexpected keyword ".toList ++
    ("argument".toList ++ (' ' :: quoteC :: (f ++ [quoteC])))

/-- Modelled from the spec: what `str(e)` of the raised construction
exception looks like for each build outcome. -/
def raiseResult : BuildOutcome → ConsResult
  | BuildOutcome.built v => ConsResult.ok v
  | BuildOutcome.missingField f => ConsResult.typeError (missingMsg f)
  | BuildOutcome.unexpectedField f => ConsResult.typeError (unexpectedMsg f)
  | BuildOutcome.otherFault => ConsResult.otherFailure

/-- Envelope content of a SimpleEvent instance (type name, payload and
system metadata carried opaquely). -/
structure Envelope where
  type : List Char
  payload : Nat
  system : Nat
deriving DecidableEq

/-- A SimpleEvent subclass: its class name and its class-level hidden
attribute. -/
structure EventClass where
  name : List Char
  hidden : Bool
deriving DecidableEq

/-- parse_content (consumer.py lines 103–116): with no inbound content the
event was fired directly server-side, so the instance hidden attribute is
forced to false and the envelope is synthesized (type from the class name
via camel_to_dot, the given payload, fresh system metadata from the
consumer); with inbound content the class hidden attribute stands and the
content is kept as is.  Returns the instance hidden attribute and the
content. -/
def parse_content (cls : EventClass) (content : Option Envelope) (payload : Nat)
    (systems : Nat) : Bool × Envelope :=
  match content with
  | none => (false, { type := camel_to_dot cls.name, payload := payload, system := systems })
  | some c => (cls.hidden, c)

/-- SimpleEvent.__init__ (consumer.py lines 66–79): parse the content, then
fire ActionNotExist when the instance is hidden.  Returns the instance
hidden attribute, the content, and the error envelopes fired. -/
def SimpleEvent_init (cls : EventClass) (content : Option Envelope) (payload : Nat)
    (systems : Nat) : Bool × Envelope × List ErrPayload :=
  let r := parse_content cls content payload systems
  (r.1, r.2, if r.1 then [ErrPayload.ActionNotExist] else [])

/-- Modelled from the spec (§3, §8): a payload shape is the list of its
declared field names; deserializing a mapping into the typed payload reads
each declared field from the mapping, and serializing writes the fields
back out.  Mappings are association lists with string keys. -/
def deserializeP (shape : List String) (m : List (String × Nat)) : List (String × Nat) :=
  shape.filterMap (fun f => (m.lookup f).map (fun v => (f, v)))

/-- Modelled from the spec: serialization of a typed payload back to a
plain mapping. -/
def serializeP (p : List (String × Nat)) : List (String × Nat) := p

/-- Modelled from the spec: a mapping is valid for a shape when it supplies
exactly the declared fields (no missing field, no unexpected field). -/
def validMapping (shape : List String) (m : List (String × Nat)) : Prop :=
  (∀ f ∈ shape, f ∈ m.map Prod.fst) ∧ (∀ f ∈ m.map Prod.fst, f ∈ shape)

/-- The consumer configuration of a bare SimpleConsumer subclass with a
broadcast group: its only declared event class is the built-in hidden
`Error` class (consumer.py lines 308–311). -/
def errorOnlyCfg : ConsumerCfg :=
  { has_channel_layer := true, broadcast_group := some "room".toList,
    event_classes := [("Error".toList, true)] }

/-- A consumer configuration with one registered, non-hidden event class
and no broadcast group (used as a concrete instance). -/
def chatCfg : ConsumerCfg :=
  { has_channel_layer := true, broadcast_group := none,
    event_classes := [("ChatSend".toList, false)] }

/-- A consumer configuration with no channel layer (used as a concrete
instance). -/
def noLayerCfg : ConsumerCfg :=
  { has_channel_layer := false, broadcast_group := some "g".toList,
    event_classes := [] }

/-! Theorems. -/

/-- With unique keys, erasing the first `system` entry is the same as
filtering every `system` entry out. -/
theorem eraseP_system_eq_filter (c : List (String × Nat)) (h : (c.map Prod.fst).Nodup) :
    c.eraseP (fun kv => kv.1 == "system") = c.filter (fun kv => !(kv.1 == "system")) := by
  induction c with
  | nil => rfl
  | cons a c ih =>
    simp only [List.map_cons, List.nodup_cons] at h
    rw [List.eraseP_cons, List.filter_cons]
    by_cases pa : (a.1 == "system") = true
    · have haa : a.1 = "system" := by simpa using pa
      simp only [pa, cond_true, Bool.not_true, Bool.false_eq_true, if_false]
      refine (List.filter_eq_self.mpr ?_).symm
      intro kv hkv
      have hne : kv.1 ≠ "system" := by
        intro hs
        exact h.1 (List.mem_map.mpr ⟨kv, hkv, by rw [hs, haa]⟩)
      simpa using hne
    · have pa' : (a.1 == "system") = false := by simpa using pa
      simp only [pa', cond_false, Bool.not_false, if_true]
      exact congrArg (a :: ·) (ih h.2)

/-- With unique keys, popping the `system` key is the same as filtering it
out of the content. -/
theorem send_json_eq_filter (c : List (String × Nat)) (h : (c.map Prod.fst).Nodup) :
    send_json c = c.filter (fun kv => !(kv.1 == "system")) := by
  have herase : send_json c = c.eraseP (fun kv => kv.1 == "system") := by
    unfold send_json
    by_cases pc : c.any (fun kv => kv.1 == "system") = true
    · rw [if_pos pc]
    · rw [if_neg pc]
      refine (List.eraseP_of_forall_not ?_).symm
      intro kv hkv hs
      exact pc (List.any_eq_true.mpr ⟨kv, hkv, hs⟩)
  rw [herase]
  exact eraseP_system_eq_filter c h

/-- C6: for every content mapping passed to send_json, the frame actually
transmitted contains no `system` key, and every other key/value pair of
the content is transmitted unchanged. -/
theorem send_json_strips_system (c : List (String × Nat))
    (h : (c.map Prod.fst).Nodup) :
    ((send_json c).all (fun kv => !(kv.1 == "system")) = true)
    ∧ ∀ k v, k ≠ "system" → ((k, v) ∈ send_json c ↔ (k, v) ∈ c) := by
  rw [send_json_eq_filter c h]
  constructor
  · rw [List.all_eq_true]
    intro kv hkv
    exact (List.mem_filter.mp hkv).2
  · intro k v hk
    rw [List.mem_filter]
    constructor
    · exact fun hx => hx.1
    · intro hx
      exact ⟨hx, by simpa using hk⟩

/-- Witness for C6 at a concrete content mapping. -/
theorem send_json_strips_system_witness :
    (((send_json [("a", 1), ("system", 5), ("b", 2)]).all
        (fun kv => !(kv.1 == "system"))) = true)
    ∧ (("b", 2) ∈ send_json [("a", 1), ("system", 5), ("b", 2)] ↔
        ("b", 2) ∈ [("a", 1), ("system", 5), ("b", 2)]) :=
  ⟨(send_json_strips_system [("a", 1), ("system", 5), ("b", 2)] (by decide)).1,
   (send_json_strips_system [("a", 1), ("system", 5), ("b", 2)] (by decide)).2
     "b" 2 (by decide)⟩

/-- C8: for every inbound frame received with no channel layer configured,
the originating connection gets exactly one ChannelLayerDisabled error
envelope and processing stops at once — whatever the frame's construction
outcome would have been, no signature check, dispatch or publish happens. -/
theorem channel_layer_disabled_short_circuit (cfg : ConsumerCfg) (n : List Char)
    (res : ConsResult) (h : cfg.has_channel_layer = false) :
    receive_json cfg n res = Except.ok [Act.errorFired ErrPayload.ChannelLayerDisabled] := by
  simp [receive_json, h]

/-- Witness for C8 on a concrete configuration and frame. -/
theorem channel_layer_disabled_short_circuit_witness :
    receive_json noLayerCfg "x".toList ConsResult.otherFailure
      = Except.ok [Act.errorFired ErrPayload.ChannelLayerDisabled] :=
  channel_layer_disabled_short_circuit noLayerCfg "x".toList ConsResult.otherFailure rfl

/-- C7: a valid inbound frame whose handler is registered, on a connection
type with no broadcast group, is accepted without failing the connection:
no error envelope is sent, nothing is published, and the non-publish is
only logged. -/
theorem no_broadcast_group_logged_only (cfg : ConsumerCfg) (n : List Char) (v : Nat)
    (hl : cfg.has_channel_layer = true) (hg : cfg.broadcast_group = none)
    (hh : lookupHandler cfg (handlerName n) = true) :
    receive_json cfg n (ConsResult.ok v) = Except.ok [Act.logged] := by
  simp [receive_json, hl, check_signature, hh, hg]

/-- Witness for C7 on a concrete configuration and frame. -/
theorem no_broadcast_group_logged_only_witness :
    receive_json chatCfg "chat.send".toList (ConsResult.ok 0) = Except.ok [Act.logged] :=
  no_broadcast_group_logged_only chatCfg "chat.send".toList 0 rfl rfl (by decide)

/-- C10: a SimpleEvent constructed directly server-side with no inbound
content has its instance hidden attribute forced to false and its envelope
synthesized (type from the class name, the given payload, fresh system
metadata), so no ActionNotExist fires; and the hidden check fires only for
invocations that carry inbound content. -/
theorem direct_event_never_action_not_exist (cls : EventClass) (payload systems : Nat) :
    SimpleEvent_init cls none payload systems
      = (false, { type := camel_to_dot cls.name, payload := payload, system := systems }, [])
    ∧ ∀ content, (SimpleEvent_init cls content payload systems).2.2 ≠ [] → content ≠ none := by
  constructor
  · rfl
  · intro content hne hc
    subst hc
    simp [SimpleEvent_init, parse_content] at hne

/-- Witness for C10 on a concrete hidden event class fired directly. -/
theorem direct_event_never_action_not_exist_witness :
    SimpleEvent_init { name := "SecretThing".toList, hidden := true } none 5 7
      = (false, { type := camel_to_dot "SecretThing".toList, payload := 5, system := 7 }, []) :=
  (direct_event_never_action_not_exist { name := "SecretThing".toList, hidden := true } 5 7).1

/-- C5 (evaluation at the failing input of the code bug): on a consumer
whose only declared event class is the built-in hidden `Error` class — so
no registered, non-hidden handler exists at all — the inbound frame naming
`Error` is not answered with ActionNotExist: the hidden class is found
under its original attribute name and the frame is published to the group.
A genuinely unknown name, in contrast, gets exactly one ActionNotExist and
no publish. -/
theorem hidden_error_event_published_bug :
    (errorOnlyCfg.event_classes.filter (fun ec => !ec.2) = [])
    ∧ receive_json errorOnlyCfg "Error".toList (ConsResult.ok 0)
        = Except.ok [Act.published "room".toList]
    ∧ receive_json errorOnlyCfg "chat.send".toList (ConsResult.ok 0)
        = Except.ok [Act.errorFired ErrPayload.ActionNotExist] :=
  ⟨rfl, rfl, rfl⟩

/-- C3: when the target class is direct-to-resolved-user and no target user
resolved, an initiator connection gets exactly one RecipientNotExist error
envelope and the pass aborts before any hook (no before, initiator or
target hook runs); a non-initiator connection emits nothing at all — no
error and no hook, in particular no target-side hook. -/
theorem recipient_not_exist_initiator_only (v iu au : Nat) (hb hi ht : Bool)
    (ri rt : Option Nat) :
    (au = iu →
      send_broadcast (ConsResult.ok v) TargetsEnum.for_user iu au none hb hi ht ri rt
        = Except.ok ([Act.errorFired ErrPayload.RecipientNotExist],
            some (parse_message TargetsEnum.for_user iu au none)))
    ∧ (au ≠ iu →
      send_broadcast (ConsResult.ok v) TargetsEnum.for_user iu au none hb hi ht ri rt
        = Except.ok ([], some (parse_message TargetsEnum.for_user iu au none))) := by
  constructor
  · intro h
    subst h
    simp [send_broadcast, check_signature, parse_message, Message.is_initiator]
  · intro h
    have hbeq : (au == iu) = false := by simpa using h
    simp [send_broadcast, check_signature, parse_message, Message.is_initiator,
      Message.is_target, hbeq]

/-- Witness for C3: an initiator connection and a non-initiator connection
evaluating the same unresolvable direct-routed event. -/
theorem recipient_not_exist_initiator_only_witness :
    (send_broadcast (ConsResult.ok 0) TargetsEnum.for_user 1 1 none true true true none none
      = Except.ok ([Act.errorFired ErrPayload.RecipientNotExist],
          some (parse_message TargetsEnum.for_user 1 1 none)))
    ∧ (send_broadcast (ConsResult.ok 0) TargetsEnum.for_user 1 2 none true true true none none
      = Except.ok ([], some (parse_message TargetsEnum.for_user 1 2 none))) :=
  ⟨(recipient_not_exist_initiator_only 0 1 1 true true true none none).1 rfl,
   (recipient_not_exist_initiator_only 0 1 2 true true true none none).2 (by decide)⟩

/-- C2 (counterexample): a pass in which only the initiator role applies
(the target class is direct-to-user and someone else is the resolved
target) returns from send_broadcast with the before-activated flag still
set — the flag is not cleared before the evaluation returns. -/
theorem before_flag_survives_single_role :
    finalFlag (send_broadcast (ConsResult.ok 0) TargetsEnum.for_user 1 1 (some 2)
      true true true none none) = some true :=
  rfl

/-- C1: in a pass where the local user is both the initiator and a
qualifying target (self-receipt) and all three hooks are supplied, the
before hook runs exactly once, and the initiator and target hooks each run
once, initiator first. -/
theorem send_broadcast_self_receipt_hooks (v : Nat) (target : TargetsEnum) (iu au : Nat)
    (tu ri rt : Option Nat)
    (hInit : (parse_message target iu au tu).is_initiator = true)
    (hTarget : (parse_message target iu au tu).is_target = true) :
    send_broadcast (ConsResult.ok v) target iu au tu true true true ri rt
      = Except.ok ([Act.callBefore, Act.callInitiator] ++ sentOf ri
          ++ ([Act.callTarget] ++ sentOf rt), some (parse_message target iu au tu))
    ∧ (([Act.callBefore, Act.callInitiator] ++ sentOf ri
          ++ ([Act.callTarget] ++ sentOf rt)).filter isHookCall
        = [Act.callBefore, Act.callInitiator, Act.callTarget]) := by
  have hInit' : (au == iu) = true := by
    simpa [parse_message, Message.is_initiator] using hInit
  constructor
  · cases target with
    | for_all =>
      simp [send_broadcast, check_signature, parse_message, Message.is_initiator,
        Message.is_target, do_for, beforeFn, Message.before_activate,
        Message.before_drop, hInit']
    | for_user =>
      have htu : tu = some au := by
        have h1 : (tu == some au) = true := by
          simpa [parse_message, Message.is_target] using hTarget
        simpa using h1
      subst htu
      simp [send_broadcast, check_signature, parse_message, Message.is_initiator,
        Message.is_target, do_for, beforeFn, Message.before_activate,
        Message.before_drop, hInit']
  · cases ri <;> cases rt <;> simp [sentOf, isHookCall]

/-- The actions a role block emits: an optional before call, the role
hook's call, and the frame for a returned event. -/
theorem do_for_snd (hb : Bool) (r : Act) (ret : Option Nat) (m : Message) :
    (do_for hb r ret m).2
      = (if hb && !m.before_activated then [Act.callBefore] else []) ++ [r] ++ sentOf ret := by
  by_cases h : (hb && !m.before_activated) = true <;>
    simp [do_for, beforeFn, h]

/-- The flag after a role block: set exactly when it was unset before the
block and the before hook was supplied (the block that consumed an
already-set flag clears it). -/
theorem do_for_flag (hb : Bool) (r : Act) (ret : Option Nat) (m : Message) :
    (do_for hb r ret m).1.before_activated = (!m.before_activated && hb) := by
  cases m with
  | mk t i a u f =>
    cases f <;> cases hb <;>
      simp [do_for, beforeFn, Message.before_activate, Message.before_drop]

/-- A role block changes only the before flag, so target applicability is
unchanged. -/
theorem do_for_is_target (hb : Bool) (r : Act) (ret : Option Nat) (m : Message) :
    (do_for hb r ret m).1.is_target = m.is_target := by
  cases m with
  | mk t i a u f =>
    cases f <;> cases hb <;>
      simp [do_for, beforeFn, Message.before_activate, Message.before_drop,
        Message.is_target]

/-- Every action a role block emits is the before call, the role call, or
an outbound frame. -/
theorem mem_do_for_acts (hb : Bool) (r a : Act) (ret : Option Nat) (m : Message)
    (ha : a ∈ (do_for hb r ret m).2) :
    a = Act.callBefore ∨ a = r ∨ ∃ e, a = Act.sentJson e := by
  rw [do_for_snd] at ha
  have ha' : a ∈ (if (hb && !m.before_activated) = true
      then [Act.callBefore] else []) ∨ a ∈ [r] ∨ a ∈ sentOf ret := by
    simpa [List.mem_append, or_assoc] using ha
  rcases ha' with h1 | h1 | h1
  · left
    by_cases h : (hb && !m.before_activated) = true
    · rw [if_pos h] at h1
      simpa using h1
    · rw [if_neg h] at h1
      simp at h1
  · right; left
    simpa using h1
  · right; right
    cases ret with
    | none => simp [sentOf] at h1
    | some e => exact ⟨e, by simpa [sentOf] using h1⟩

/-- How many times the before hook runs in one role block. -/
theorem count_callBefore_do_for (hb : Bool) (r : Act) (ret : Option Nat) (m : Message)
    (hr : r ≠ Act.callBefore) :
    (do_for hb r ret m).2.count Act.callBefore
      = if hb && !m.before_activated then 1 else 0 := by
  rw [do_for_snd]
  by_cases h : (hb && !m.before_activated) = true <;> cases ret <;>
    simp [h, sentOf, List.count_append, List.count_cons, hr]

/-- C2 (amended): in every send_broadcast evaluation the before hook is
activated at most once; whenever both role hooks ran in the pass, the
before flag is cleared again by the time send_broadcast returns; when
exactly one role ran and activated it, the flag remains set at return (the
routing message does not outlive the call). -/
theorem before_flag_at_most_once_and_drop (pr : ConsResult) (target : TargetsEnum)
    (iu au : Nat) (tu ri rt : Option Nat) (hb hi ht : Bool) (acts : List Act)
    (mfin : Option Message)
    (heq : send_broadcast pr target iu au tu hb hi ht ri rt = Except.ok (acts, mfin)) :
    acts.count Act.callBefore ≤ 1
    ∧ (Act.callInitiator ∈ acts → Act.callTarget ∈ acts →
        ∀ m, mfin = some m → m.before_activated = false) := by
  rcases hcs : check_signature pr with e | ⟨d, err, errActs⟩
  · simp only [send_broadcast, hcs] at heq
    exact Except.noConfusion heq
  · simp only [send_broadcast, hcs] at heq
    by_cases herr : err = true
    · rw [if_pos herr] at heq
      obtain ⟨hacts, hmfin⟩ := by
        simpa only [Except.ok.injEq, Prod.mk.injEq] using heq
      constructor
      · rw [← hacts]
        have : Act.callBefore ∉ errActs.map Act.errorFired := by
          intro hmem
          obtain ⟨p, _, hp⟩ := List.mem_map.mp hmem
          cases hp
        simp [List.count_eq_zero.mpr this]
      · intro _ _ m hm
        rw [← hmfin] at hm
        cases hm
    · rw [if_neg herr] at heq
      set m0 := parse_message target iu au tu with hm0
      by_cases hg : ((m0.target == TargetsEnum.for_user && m0.target_user == none)
          && m0.is_initiator) = true
      · rw [if_pos hg] at heq
        obtain ⟨hacts, hmfin⟩ := by
          simpa only [Except.ok.injEq, Prod.mk.injEq] using heq
        constructor
        · rw [← hacts]; simp
        · intro hmemI _ _ _
          rw [← hacts] at hmemI
          simp at hmemI
      · rw [if_neg hg] at heq
        by_cases hg1 : (m0.is_initiator && hi) = true
        all_goals by_cases hg2 : (m0.is_target && ht) = true
        · -- both role blocks run
          rw [if_pos hg1] at heq
          rw [if_pos (by rw [do_for_is_target]; exact hg2)] at heq
          obtain ⟨hacts, hmfin⟩ := by
            simpa only [Except.ok.injEq, Prod.mk.injEq] using heq
          have hflag0 : m0.before_activated = false := rfl
          have hflag1 : (do_for hb Act.callInitiator ri m0).1.before_activated = hb := by
            rw [do_for_flag, hflag0]; simp
          constructor
          · rw [← hacts, List.count_append,
              count_callBefore_do_for hb Act.callInitiator ri m0 (by simp),
              count_callBefore_do_for hb Act.callTarget rt _ (by simp),
              hflag0, hflag1]
            cases hb <;> simp
          · intro _ _ m hm
            rw [← hmfin] at hm
            have hm' : (do_for hb Act.callTarget rt
                (do_for hb Act.callInitiator ri m0).1).1 = m := by
              simpa using hm
            rw [← hm', do_for_flag, hflag1]
            cases hb <;> simp
        · -- initiator block only
          rw [if_pos hg1] at heq
          rw [if_neg (by rw [do_for_is_target]; exact hg2)] at heq
          obtain ⟨hacts, hmfin⟩ := by
            simpa only [Except.ok.injEq, Prod.mk.injEq] using heq
          constructor
          · rw [← hacts, List.count_append, List.count_nil,
              count_callBefore_do_for hb Act.callInitiator ri m0 (by simp)]
            split <;> simp
          · intro _ hmemT _ _
            rw [← hacts] at hmemT
            rw [List.append_nil] at hmemT
            rcases mem_do_for_acts hb Act.callInitiator Act.callTarget ri m0 hmemT with
              h | h | ⟨e, h⟩ <;> cases h
        · -- target block only
          rw [if_neg hg1] at heq
          rw [if_pos (by exact hg2)] at heq
          obtain ⟨hacts, hmfin⟩ := by
            simpa only [Except.ok.injEq, Prod.mk.injEq] using heq
          constructor
          · rw [← hacts, List.count_append, List.count_nil,
              count_callBefore_do_for hb Act.callTarget rt m0 (by simp)]
            split <;> simp
          · intro hmemI _ _ _
            rw [← hacts] at hmemI
            rw [List.nil_append] at hmemI
            rcases mem_do_for_acts hb Act.callTarget Act.callInitiator rt m0 hmemI with
              h | h | ⟨e, h⟩ <;> cases h
        · -- neither block runs
          rw [if_neg hg1] at heq
          rw [if_neg (by exact hg2)] at heq
          obtain ⟨hacts, hmfin⟩ := by
            simpa only [Except.ok.injEq, Prod.mk.injEq] using heq
          constructor
          · rw [← hacts]; simp
          · intro hmemI _ _ _
            rw [← hacts] at hmemI
            simp at hmemI

/-- Witness for C2 (amended) on a concrete both-roles pass. -/
theorem before_flag_at_most_once_and_drop_witness :
    ([Act.callBefore, Act.callInitiator, Act.callTarget].count Act.callBefore ≤ 1)
    ∧ (Act.callInitiator ∈ [Act.callBefore, Act.callInitiator, Act.callTarget] →
        Act.callTarget ∈ [Act.callBefore, Act.callInitiator, Act.callTarget] →
        ∀ m, some (parse_message TargetsEnum.for_all 1 1 none) = some m →
          m.before_activated = false) :=
  before_flag_at_most_once_and_drop (ConsResult.ok 0) TargetsEnum.for_all 1 1 none
    none none true true true [Act.callBefore, Act.callInitiator, Act.callTarget]
    (some (parse_message TargetsEnum.for_all 1 1 none)) (by rfl)

/-- Witness for C1: a broadcast-to-all event on the initiator's own
connection, with the initiator hook returning a reply event. -/
theorem send_broadcast_self_receipt_hooks_witness :
    send_broadcast (ConsResult.ok 0) TargetsEnum.for_all 1 1 none true true true (some 9) none
      = Except.ok ([Act.callBefore, Act.callInitiator] ++ sentOf (some 9)
          ++ ([Act.callTarget] ++ sentOf none),
          some (parse_message TargetsEnum.for_all 1 1 none)) :=
  (send_broadcast_self_receipt_hooks 0 TargetsEnum.for_all 1 1 none (some 9) none
    (by decide) (by decide)).1

/-- One step of deserialization: the head field is read from the mapping
and consed on when present. -/
theorem deserializeP_cons (f : String) (rest : List String) (m : List (String × Nat)) :
    deserializeP (f :: rest) m
      = match (m.lookup f).map (fun v => (f, v)) with
        | none => deserializeP rest m
        | some p => p :: deserializeP rest m := by
  unfold deserializeP
  rw [List.filterMap_cons]
  cases (m.lookup f).map (fun v => (f, v)) <;> rfl

/-- Looking up a declared field in the deserialized payload agrees with the
mapping, provided every declared field is supplied. -/
theorem lookup_deserializeP_of_mem (shape : List String) (m : List (String × Nat))
    (k : String) (hk : k ∈ shape) (hall : ∀ f ∈ shape, f ∈ m.map Prod.fst) :
    (deserializeP shape m).lookup k = m.lookup k := by
  induction shape with
  | nil => cases hk
  | cons f rest ih =>
    have hf : f ∈ m.map Prod.fst := hall f (List.mem_cons_self f rest)
    have hsome : (m.lookup f).isSome := by
      rw [List.lookup_isSome_iff]
      obtain ⟨p, hp, he⟩ := List.mem_map.mp hf
      exact ⟨p, hp, by simp [he]⟩
    obtain ⟨v, hv⟩ := Option.isSome_iff_exists.mp hsome
    rw [deserializeP_cons, hv]
    simp only [Option.map_some']
    by_cases hkf : k = f
    · subst hkf
      rw [List.lookup_cons_self]
      exact hv.symm
    · have hbf : (k == f) = false := by simpa using hkf
      rw [List.lookup_cons]
      simp only [hbf]
      exact ih (by
          rcases List.mem_cons.mp hk with h | h
          · exact absurd h hkf
          · exact h)
        (fun g hg => hall g (List.mem_cons_of_mem f hg))

/-- Looking up an undeclared field in the deserialized payload gives
nothing: only declared fields are written out. -/
theorem lookup_deserializeP_of_not_mem (shape : List String) (m : List (String × Nat))
    (k : String) (hk : k ∉ shape) :
    (deserializeP shape m).lookup k = none := by
  induction shape with
  | nil => rfl
  | cons f rest ih =>
    have hkf : k ≠ f := fun h => hk (h ▸ List.mem_cons_self f rest)
    have hkr : k ∉ rest := fun h => hk (List.mem_cons_of_mem f h)
    rw [deserializeP_cons]
    cases hml : m.lookup f with
    | none =>
      simp only [Option.map_none']
      exact ih hkr
    | some v =>
      simp only [Option.map_some']
      have hbf : (k == f) = false := by simpa using hkf
      rw [List.lookup_cons]
      simp only [hbf]
      exact ih hkr

/-- C9: for every mapping that validly matches a declared payload shape,
serializing the deserialized typed payload yields the same mapping — the
same value for every key. -/
theorem payload_serialize_deserialize_round_trip (shape : List String)
    (m : List (String × Nat)) (hv : validMapping shape m) :
    ∀ k, (serializeP (deserializeP shape m)).lookup k = m.lookup k := by
  intro k
  rw [show serializeP (deserializeP shape m) = deserializeP shape m from rfl]
  by_cases hk : k ∈ shape
  · exact lookup_deserializeP_of_mem shape m k hk hv.1
  · rw [lookup_deserializeP_of_not_mem shape m k hk]
    symm
    rw [List.lookup_eq_none_iff]
    intro p hp
    have hkeys : p.1 ∈ m.map Prod.fst := List.mem_map.mpr ⟨p, hp, rfl⟩
    have hps : p.1 ∈ shape := hv.2 p.1 hkeys
    have hne : k ≠ p.1 := fun he => hk (he ▸ hps)
    simpa using hne

/-- Witness for C9 on a concrete shape and a mapping given in a different
key order. -/
theorem payload_serialize_deserialize_round_trip_witness :
    (serializeP (deserializeP ["a", "b"] [("b", 2), ("a", 1)])).lookup "a"
      = [("b", 2), ("a", 1)].lookup "a" :=
  payload_serialize_deserialize_round_trip ["a", "b"] [("b", 2), ("a", 1)]
    (by constructor <;> decide) "a"

/-- An occurrence inside a left part is an occurrence in the whole. -/
theorem occursIn_append_right (l a b : List Char) (h : l <:+: a) : l <:+: a ++ b := by
  obtain ⟨t, u, rfl⟩ := h
  exact ⟨t, u ++ b, by simp⟩

/-- An occurrence is preserved by consing a character in front. -/
theorem occursIn_cons_intro (l s : List Char) (x : Char) (h : l <:+: s) :
    l <:+: x :: s := by
  obtain ⟨t, u, rfl⟩ := h
  exact ⟨x :: t, u, by simp⟩

/-- Occurrences reverse. -/
theorem occursIn_rev (l s : List Char) (h : l <:+: s) : l.reverse <:+: s.reverse := by
  obtain ⟨t, u, rfl⟩ := h
  exact ⟨u.reverse, t.reverse, by simp⟩

/-- Occurrences un-reverse. -/
theorem occursIn_of_rev (l s : List Char) (h : l.reverse <:+: s.reverse) : l <:+: s := by
  have h2 := occursIn_rev l.reverse s.reverse h
  simpa using h2

/-- Every character of an occurring pattern occurs in the string. -/
theorem occursIn_subset (l s : List Char) (h : l <:+: s) (x : Char) (hx : x ∈ l) :
    x ∈ s := by
  obtain ⟨t, u, rfl⟩ := h
  simp only [List.mem_append]
  exact Or.inl (Or.inr hx)

/-- A pattern holding a character the string lacks does not occur. -/
theorem not_occursIn_of_mem_not (sep s : List Char) (c : Char) (hc : c ∈ sep)
    (hs : ∀ x ∈ s, x ≠ c) : ¬ sep <:+: s := by
  intro h
  exact hs c (occursIn_subset sep s h c hc) rfl

/-- A pattern starting with `c₀` that occurs after a character other than
`c₀` occurs in the rest. -/
theorem occursIn_cons_elim (c₀ : Char) (sep' s : List Char) (x : Char)
    (hx : x ≠ c₀) (h : (c₀ :: sep') <:+: x :: s) : (c₀ :: sep') <:+: s := by
  obtain ⟨t, u, he⟩ := h
  cases t with
  | nil =>
    simp only [List.nil_append, List.cons_append, List.cons.injEq] at he
    exact absurd he.1.symm hx
  | cons y t' =>
    simp only [List.cons_append, List.cons.injEq] at he
    exact ⟨t', u, he.2⟩

/-- A pattern starting with `c₀` occurring after a run of characters other
than `c₀` occurs past that run. -/
theorem occursIn_drop_front (c₀ : Char) (sep' : List Char) (pre s : List Char)
    (hpre : ∀ x ∈ pre, x ≠ c₀) (h : (c₀ :: sep') <:+: pre ++ s) :
    (c₀ :: sep') <:+: s := by
  induction pre with
  | nil => simpa using h
  | cons y t ih =>
    refine ih (fun x hx => hpre x (List.mem_cons_of_mem y hx)) ?_
    exact occursIn_cons_elim c₀ sep' (t ++ s) y (hpre y (List.mem_cons_self y t))
      (by simpa using h)

/-- A pattern ending in `c₀` that does not occur in `a` does not occur in
`a ++ b` when `b` has no `c₀` at all. -/
theorem not_occursIn_append_of_last (sep a b : List Char) (c₀ : Char) (sep' : List Char)
    (hrev : sep.reverse = c₀ :: sep') (hb : ∀ x ∈ b, x ≠ c₀) (ha : ¬ sep <:+: a) :
    ¬ sep <:+: a ++ b := by
  intro h
  have h2 : sep.reverse <:+: b.reverse ++ a.reverse := by
    have := occursIn_rev sep (a ++ b) h
    simpa [List.reverse_append] using this
  rw [hrev] at h2
  have h3 : (c₀ :: sep') <:+: a.reverse :=
    occursIn_drop_front c₀ sep' b.reverse a.reverse
      (fun x hx => hb x (List.mem_reverse.mp hx)) h2
  exact ha (occursIn_of_rev sep a (by rw [hrev]; exact h3))

/-- Splitting a string the separator does not occur in yields the string
itself. -/
theorem pySplitF_of_not_occursIn (sep : List Char) (fuel : Nat) (s : List Char)
    (h : ¬ sep <:+: s) : pySplitF sep fuel s = [s] := by
  induction fuel generalizing s with
  | zero =>
    cases s with
    | nil => rfl
    | cons c rest => rfl
  | succ n ih =>
    cases s with
    | nil => rfl
    | cons c rest =>
      have hsep : sep ≠ [] := by
        intro he
        exact h (he ▸ ⟨[], c :: rest, rfl⟩)
      have hpre : sep.isPrefixOf (c :: rest) = false := by
        by_cases hp : sep.isPrefixOf (c :: rest) = true
        · exfalso
          obtain ⟨t, ht⟩ := List.isPrefixOf_iff_prefix.mp hp
          exact h ⟨[], t, by simpa using ht⟩
        · simp only [Bool.not_eq_true] at hp
          exact hp
      have hrest : ¬ sep <:+: rest := fun hr => h (occursIn_cons_intro sep rest c hr)
      simp only [pySplitF, hpre, Bool.and_false, Bool.false_eq_true, if_false]
      rw [ih rest hrest]

/-- One definitional step of the split on a non-empty string. -/
theorem pySplitF_step (sep : List Char) (n : Nat) (c : Char) (rest : List Char) :
    pySplitF sep (n+1) (c :: rest)
      = if sep ≠ [] && sep.isPrefixOf (c :: rest) then
          [] :: pySplitF sep n ((c :: rest).drop sep.length)
        else
          match pySplitF sep n rest with
          | [] => [[c]]
          | h :: t => (c :: h) :: t :=
  rfl

/-- Splitting `a ++ sep ++ b` when the separator occurs neither in the
leading part (nor straddling into the separator) nor in the trailing part
yields exactly the two pieces. -/
theorem pySplitF_extract (sep a b : List Char) (fuel : Nat) (hsep : sep ≠ [])
    (hno : ¬ sep <:+: (a ++ sep.dropLast)) (hb : ¬ sep <:+: b)
    (hfuel : a.length + b.length + 1 ≤ fuel) :
    pySplitF sep fuel (a ++ (sep ++ b)) = [a, b] := by
  induction a generalizing fuel with
  | nil =>
    cases fuel with
    | zero => omega
    | succ n =>
      cases sep with
      | nil => exact absurd rfl hsep
      | cons c₀ sep'' =>
        have hshape : ([] : List Char) ++ ((c₀ :: sep'') ++ b) = c₀ :: (sep'' ++ b) := rfl
        rw [hshape, pySplitF_step]
        have hcond : (decide ((c₀ :: sep'') ≠ []) &&
            (c₀ :: sep'').isPrefixOf (c₀ :: (sep'' ++ b))) = true := by
          have hpr : (c₀ :: sep'').isPrefixOf (c₀ :: (sep'' ++ b)) = true := by
            refine List.isPrefixOf_iff_prefix.mpr ⟨b, ?_⟩
            simp
          rw [hpr]
          simp
        rw [if_pos hcond]
        have hdrop : (c₀ :: (sep'' ++ b)).drop (c₀ :: sep'').length = b := by
          simp only [List.length_cons, List.drop_succ_cons]
          exact List.drop_left sep'' b
        rw [hdrop, pySplitF_of_not_occursIn (c₀ :: sep'') n b hb]
  | cons c a' ih =>
    cases fuel with
    | zero => simp at hfuel
    | succ n =>
      have hlast : sep.dropLast ++ [sep.getLast hsep] = sep :=
        List.dropLast_append_getLast hsep
      have hp : sep.isPrefixOf (c :: (a' ++ (sep ++ b))) = false := by
        by_cases hpt : sep.isPrefixOf (c :: (a' ++ (sep ++ b))) = true
        · exfalso
          apply hno
          obtain ⟨t, ht⟩ := List.isPrefixOf_iff_prefix.mp hpt
          have hxy : c :: (a' ++ (sep ++ b))
              = ((c :: a') ++ sep.dropLast) ++ ([sep.getLast hsep] ++ b) := by
            rw [List.append_assoc, ← List.append_assoc sep.dropLast, hlast]
            rfl
          have hxylen : sep.length ≤ ((c :: a') ++ sep.dropLast).length := by
            have h1 : sep.dropLast.length + 1 = sep.length := by
              conv_rhs => rw [← hlast]
              simp
            simp only [List.length_append, List.length_cons]
            omega
          have hpre1 : sep <+: ((c :: a') ++ sep.dropLast) ++ ([sep.getLast hsep] ++ b) :=
            ⟨t, by rw [ht, hxy]⟩
          have htake := List.prefix_iff_eq_take.mp hpre1
          rw [List.take_append_eq_append_take, Nat.sub_eq_zero_of_le hxylen,
            List.take_zero, List.append_nil] at htake
          have hpre2 : sep <+: ((c :: a') ++ sep.dropLast) := by
            nth_rewrite 1 [htake]
            exact List.take_prefix _ _
          obtain ⟨u, hu⟩ := hpre2
          exact ⟨[], u, by simpa using hu⟩
        · simp only [Bool.not_eq_true] at hpt
          exact hpt
      have hno' : ¬ sep <:+: (a' ++ sep.dropLast) := by
        intro hx
        exact hno (occursIn_cons_intro sep (a' ++ sep.dropLast) c hx)
      have hfuel' : a'.length + b.length + 1 ≤ n := by
        simp only [List.length_cons] at hfuel
        omega
      have hshape : (c :: a') ++ (sep ++ b) = c :: (a' ++ (sep ++ b)) := rfl
      rw [hshape, pySplitF_step, if_neg (by rw [hp]; simp), ih n hno' hfuel']

/-- Two characters with different identifier status differ. -/
theorem idChar_ne (c : Char) (hc : isIdChar c = true) (d : Char)
    (hd : isIdChar d = false) : c ≠ d := by
  intro he
  rw [he] at hc
  exact absurd (hc.symm.trans hd) (by simp)

/-- dropWhile stops at a non-space character. -/
theorem dropWhile_stop (c : Char) (s : List Char) (hc : isPySpace c = false) :
    List.dropWhile isPySpace (c :: s) = c :: s := by
  simp [List.dropWhile_cons, hc]

/-- The right end of a quote-wrapped field name has no whitespace to
strip. -/
theorem strip_core (f : List Char) :
    ((quoteC :: (f ++ [quoteC])).reverse.dropWhile isPySpace).reverse
      = quoteC :: (f ++ [quoteC]) := by
  have h1 : (quoteC :: (f ++ [quoteC])).reverse = quoteC :: (f.reverse ++ [quoteC]) := by
    simp
  rw [h1, dropWhile_stop _ _ (by decide), ← h1, List.reverse_reverse]

/-- Stripping a quote-wrapped field name changes nothing. -/
theorem pyStrip_quoted (f : List Char) :
    pyStrip (quoteC :: (f ++ [quoteC])) = quoteC :: (f ++ [quoteC]) := by
  unfold pyStrip
  rw [dropWhile_stop _ _ (by decide), strip_core]

/-- Stripping a quote-wrapped field name with a leading space removes just
the space. -/
theorem pyStrip_space_quoted (f : List Char) :
    pyStrip (' ' :: quoteC :: (f ++ [quoteC])) = quoteC :: (f ++ [quoteC]) := by
  unfold pyStrip
  have h0 : List.dropWhile isPySpace (' ' :: quoteC :: (f ++ [quoteC]))
      = List.dropWhile isPySpace (quoteC :: (f ++ [quoteC])) := by
    simp [List.dropWhile_cons, show isPySpace ' ' = true by decide]
  rw [h0, dropWhile_stop _ _ (by decide), strip_core]

/-- Removing the quotes from a quote-wrapped identifier yields the
identifier. -/
theorem pyRemoveQuotes_quoted (f : List Char) (hid : ∀ c ∈ f, isIdChar c = true) :
    pyRemoveQuotes (quoteC :: (f ++ [quoteC])) = f := by
  unfold pyRemoveQuotes
  rw [List.filter_cons]
  have hq : (!(quoteC == quoteC)) = false := by decide
  simp only [hq, Bool.false_eq_true, if_false]
  rw [List.filter_append]
  have h1 : f.filter (fun c => !(c == quoteC)) = f := by
    refine List.filter_eq_self.mpr ?_
    intro c hc
    have hne : c ≠ quoteC := idChar_ne c (hid c hc) quoteC (by decide)
    simpa using hne
  have h2 : [quoteC].filter (fun c => !(c == quoteC)) = [] := by decide
  rw [h1, h2, List.append_nil]

/-- The missing-field TypeError message contains the missing marker. -/
theorem pyIn_missing_missingMsg (f : List Char) :
    pyIn " missing ".toList (missingMsg f) = true := by
  unfold pyIn
  apply decide_eq_true
  have h1 : " missing ".toList <:+:
      "__init__() missing 1 required positional argument: ".toList := by decide
  exact occursIn_append_right _ _ _ h1

/-- The missing-field TypeError message does not contain the unexpected
marker (the marker needs a final space and the quoted identifier tail of
the message has none). -/
theorem pyIn_unexpected_missingMsg (f : List Char) (hid : ∀ c ∈ f, isIdChar c = true) :
    pyIn " unexpected ".toList (missingMsg f) = false := by
  unfold pyIn
  apply decide_eq_false
  have hre : missingMsg f
      = ("__init__() missing 1 required positional argument: ".toList ++ [quoteC])
        ++ (f ++ [quoteC]) := rfl
  rw [hre]
  refine not_occursIn_append_of_last _ _ _ ' ' "detcepxenu ".toList rfl ?_ (by decide)
  intro x hx
  rcases List.mem_append.mp hx with h | h
  · exact idChar_ne x (hid x h) ' ' (by decide)
  · have hxq : x = quoteC := by simpa using h
    rw [hxq]
    decide

/-- The unexpected-field TypeError message contains the unexpected
marker. -/
theorem pyIn_unexpected_unexpectedMsg (f : List Char) :
    pyIn " unexpected ".toList (unexpectedMsg f) = true := by
  unfold pyIn
  apply decide_eq_true
  have h1 : " unexpected ".toList <:+:
      "__init__() got an unexpected keyword ".toList := by decide
  exact occursIn_append_right _ _ _ h1

/-- The unexpected-field TypeError message does not contain the missing
marker. -/
theorem pyIn_missing_unexpectedMsg (f : List Char) (hid : ∀ c ∈ f, isIdChar c = true) :
    pyIn " missing ".toList (unexpectedMsg f) = false := by
  unfold pyIn
  apply decide_eq_false
  have hre : unexpectedMsg f
      = ("__init__() got an unexpected keyword argument ".toList ++ [quoteC])
        ++ (f ++ [quoteC]) := rfl
  rw [hre]
  refine not_occursIn_append_of_last _ _ _ ' ' "gnissim ".toList rfl ?_ (by decide)
  intro x hx
  rcases List.mem_append.mp hx with h | h
  · exact idChar_ne x (hid x h) ' ' (by decide)
  · have hxq : x = quoteC := by simpa using h
    rw [hxq]
    decide

/-- Splitting the missing-field message on the source's separator isolates
the quoted field name. -/
theorem pySplit_missingMsg (f : List Char) (hid : ∀ c ∈ f, isIdChar c = true) :
    pySplit "argument: ".toList (missingMsg f)
      = ["__init__() missing 1 required positional ".toList,
         quoteC :: (f ++ [quoteC])] := by
  have hre : missingMsg f
      = "__init__() missing 1 required positional ".toList
        ++ ("argument: ".toList ++ (quoteC :: (f ++ [quoteC]))) := rfl
  unfold pySplit
  rw [hre]
  refine pySplitF_extract _ _ _ _ (by decide) (by decide) ?_ ?_
  · refine not_occursIn_of_mem_not _ _ ':' (by decide) ?_
    intro x hx
    rcases List.mem_cons.mp hx with h | h
    · rw [h]
      decide
    · rcases List.mem_append.mp h with h2 | h2
      · exact idChar_ne x (hid x h2) ':' (by decide)
      · have hxq : x = quoteC := by simpa using h2
        rw [hxq]
        decide
  · have hsl : ("argument: ".toList).length = 10 := rfl
    simp only [List.length_append, List.length_cons, List.length_nil, hsl]
    omega

/-- Splitting the unexpected-field message on the source's separator
isolates the quoted field name, provided the name does not itself contain
the separator. -/
theorem pySplit_unexpectedMsg (f : List Char) (_hid : ∀ c ∈ f, isIdChar c = true)
    (hna : ¬ ("argument".toList <:+: f)) :
    pySplit "argument".toList (unexpectedMsg f)
      = ["__init__() got an unexpected keyword ".toList,
         ' ' :: quoteC :: (f ++ [quoteC])] := by
  have hre : unexpectedMsg f
      = "__init__() got an unexpected keyword ".toList
        ++ ("argument".toList ++ (' ' :: quoteC :: (f ++ [quoteC]))) := rfl
  unfold pySplit
  rw [hre]
  refine pySplitF_extract _ _ _ _ (by decide) (by decide) ?_ ?_
  · have hform : "argument".toList = 'a' :: "rgument".toList := rfl
    intro h
    rw [hform] at h
    have h1 := occursIn_cons_elim 'a' "rgument".toList _ ' ' (by decide) h
    have h2 := occursIn_cons_elim 'a' "rgument".toList _ quoteC (by decide) h1
    rw [← hform] at h2
    have h3 : ¬ ("argument".toList <:+: f ++ [quoteC]) := by
      refine not_occursIn_append_of_last _ _ _ 't' "nemugra".toList rfl ?_ hna
      intro x hx
      have hxq : x = quoteC := by simpa using hx
      rw [hxq]
      decide
    exact h3 h2
  · have hsl : ("argument".toList).length = 8 := rfl
    simp only [List.length_append, List.length_cons, List.length_nil, hsl]
    omega

/-- C4 (amended): a construction failure from a missing required field
yields exactly one PayloadSignatureWrong envelope naming the field; a
failure from an unrecognized supplied field whose name does not contain
the substring `argument` yields exactly one ActionSignatureWrong envelope
naming the field (when the name contains `argument`, the extracted name is
mangled); each such failure is classified into exactly one of the two
kinds; after either, routing of the frame aborts with the error flag set
and nothing published; and a failure that is not a TypeError propagates
uncaught. -/
theorem check_signature_classification (f : List Char)
    (hid : ∀ c ∈ f, isIdChar c = true) :
    check_signature (raiseResult (BuildOutcome.missingField f))
        = Except.ok (none, true, [ErrPayload.PayloadSignatureWrong f])
    ∧ (¬ ("argument".toList <:+: f) →
        check_signature (raiseResult (BuildOutcome.unexpectedField f))
          = Except.ok (none, true, [ErrPayload.ActionSignatureWrong f]))
    ∧ check_signature (raiseResult BuildOutcome.otherFault) = Except.error ()
    ∧ (∀ cfg n, cfg.has_channel_layer = true →
        receive_json cfg n (raiseResult (BuildOutcome.missingField f))
          = Except.ok [Act.errorFired (ErrPayload.PayloadSignatureWrong f)])
    ∧ (¬ ("argument".toList <:+: f) →
        ∀ cfg n, cfg.has_channel_layer = true →
          receive_json cfg n (raiseResult (BuildOutcome.unexpectedField f))
            = Except.ok [Act.errorFired (ErrPayload.ActionSignatureWrong f)]) := by
  have hcs1 : check_signature (raiseResult (BuildOutcome.missingField f))
      = Except.ok (none, true, [ErrPayload.PayloadSignatureWrong f]) := by
    show check_signature (ConsResult.typeError (missingMsg f)) = _
    simp only [check_signature, pyIn_missing_missingMsg f,
      pyIn_unexpected_missingMsg f hid, pySplit_missingMsg f hid]
    simp [pyStrip_quoted, pyRemoveQuotes_quoted f hid]
  have hcs2 : ¬ ("argument".toList <:+: f) →
      check_signature (raiseResult (BuildOutcome.unexpectedField f))
        = Except.ok (none, true, [ErrPayload.ActionSignatureWrong f]) := by
    intro hna
    show check_signature (ConsResult.typeError (unexpectedMsg f)) = _
    simp only [check_signature, pyIn_missing_unexpectedMsg f hid,
      pyIn_unexpected_unexpectedMsg f, pySplit_unexpectedMsg f hid hna]
    simp [pyStrip_space_quoted, pyRemoveQuotes_quoted f hid]
  have hrj1 : ∀ cfg n, cfg.has_channel_layer = true →
      receive_json cfg n (raiseResult (BuildOutcome.missingField f))
        = Except.ok [Act.errorFired (ErrPayload.PayloadSignatureWrong f)] := by
    intro cfg n hl
    unfold receive_json
    rw [hl, hcs1]
    simp
  have hrj2 : ¬ ("argument".toList <:+: f) →
      ∀ cfg n, cfg.has_channel_layer = true →
        receive_json cfg n (raiseResult (BuildOutcome.unexpectedField f))
          = Except.ok [Act.errorFired (ErrPayload.ActionSignatureWrong f)] := by
    intro hna cfg n hl
    unfold receive_json
    rw [hl, hcs2 hna]
    simp
  exact ⟨hcs1, hcs2, rfl, hrj1, hrj2⟩

/-- Witness for C4 (amended): the missing-field branch on the field name
`arguments` (which contains the substring `argument` and is still named
correctly) and the unexpected-field branch on the field name `payload`. -/
theorem check_signature_classification_witness :
    (check_signature (raiseResult (BuildOutcome.missingField "arguments".toList))
      = Except.ok (none, true, [ErrPayload.PayloadSignatureWrong "arguments".toList]))
    ∧ (check_signature (raiseResult (BuildOutcome.unexpectedField "payload".toList))
      = Except.ok (none, true, [ErrPayload.ActionSignatureWrong "payload".toList])) :=
  ⟨(check_signature_classification "arguments".toList (by decide)).1,
   (check_signature_classification "payload".toList (by decide)).2.1 (by decide)⟩

/-- C4 (counterexample): for the unexpected field named `argument1` the
emitted ActionSignatureWrong envelope does not carry the field's name —
the split/strip/replace extraction mangles it to the empty string. -/
theorem action_signature_wrong_mangles_name :
    check_signature (raiseResult (BuildOutcome.unexpectedField "argument1".toList))
      = Except.ok (none, true, [ErrPayload.ActionSignatureWrong []])
    ∧ ("argument1".toList ≠ ([] : List Char)) := by
  constructor
  · rfl
  · decide

end SimpleConsumer
